import Mathlib

/-!
Verification of `libbb/xreadlink.c` (busybox-w32 path-resolution fragment).

The C file defines four layered operations:
  * `xmalloc_readlink`            - buffered symlink-target read (BufferedLinkReader)
  * `xmalloc_follow_symlinks`     - trailing-symlink chain resolution (SymlinkChainResolver)
  * `xmalloc_realpath`            - facade over the strict canonicalization primitive
  * `xmalloc_realpath_coreutils`  - coreutils-style canonicalization tolerating a
                                    missing final component

Paths are modelled as lists of characters (C strings without their terminator,
except in the explicit memory model used for the frame/in-bounds claims, where
the terminator byte is part of the buffer).  The OS primitives `readlink`,
`realpath` and `getcwd` are external collaborators, modelled as an abstract,
static filesystem interface `FS`.
-/

/-- A filesystem path: the character content of a C string (no NUL terminator). -/
abbrev CPath := List Char

/-- OS error codes (`errno` values) that `xreadlink.c` distinguishes, plus
representatives for every other failure (`EACCES`, `EOTHER`). -/
inductive Errno where
  | EINVAL | ENOENT | ENOSYS | ELOOP | EACCES | EOTHER
deriving DecidableEq, Repr

/-- Abstract, static filesystem: the two OS primitives used by `xreadlink.c`
(`readlink`, which on success yields the stored target text of a symlink, and
`realpath`, the strict canonicalization primitive), plus the current working
directory (`xrealloc_getcwd_or_warn`).  Errors carry the `errno` the primitive
sets. -/
structure FS where
  readlinkFS : CPath → Except Errno CPath
  realpathFS : CPath → Except Errno CPath
  cwd : CPath

/-- Decidable equality of primitive results, so that concrete filesystem facts
can be checked by evaluation. -/
instance : DecidableEq (Except Errno CPath) := fun a b =>
  match a, b with
  | .error a, .error b =>
    if h : a = b then isTrue (by rw [h]) else isFalse (fun hc => h (by injection hc))
  | .error _, .ok _ => isFalse (fun hc => Except.noConfusion hc)
  | .ok _, .error _ => isFalse (fun hc => Except.noConfusion hc)
  | .ok a, .ok b =>
    if h : a = b then isTrue (by rw [h]) else isFalse (fun hc => h (by injection hc))

/-- Growth increment of `xmalloc_readlink`'s buffer: `enum { GROWBY = 80 }`. -/
def GROWBY : Nat := 80

/-- Hop bound of `xmalloc_follow_symlinks`: `#define MAXSYMLINKS 20`. -/
def MAXSYMLINKS : Nat := 20

/-- The grow-and-retry loop of `xmalloc_readlink` (lines 27-35): given the
symlink target's length `L`, repeat `bufsize += GROWBY;
readsize = readlink(path, buf, bufsize)` — where POSIX `readlink` truncates,
reporting `min L bufsize` bytes written — `while (bufsize < readsize + 1)`.
Returns the `readsize` reported by the final read. -/
def readlink_loop (L bufsize : Nat) : Nat :=
  if _h : bufsize + GROWBY < min L (bufsize + GROWBY) + 1 then
    readlink_loop L (bufsize + GROWBY)
  else
    min L (bufsize + GROWBY)
termination_by L + 1 - bufsize
decreasing_by
  have hG : GROWBY = 80 := rfl
  omega

/-- Model of `xmalloc_readlink` (lines 20-40): read a symlink's target into a grown-to-fit
buffer; `NULL` on any read error; otherwise the first `readsize` bytes of the
target, explicitly NUL-terminated at index `readsize` (`buf[readsize] = '\0'`). -/
def xmalloc_readlink (fs : FS) (path : CPath) : Option CPath :=
  match fs.readlinkFS path with
  | .error _ => none
  | .ok t => some (t.take (readlink_loop t.length 0))

/-- A filesystem whose single symlink `"p"` stores a 160-character target
(exactly two growth increments). -/
def readlinkWitnessFS : FS where
  readlinkFS := fun q => if q = ['p'] then .ok (List.replicate 160 'a') else .error .EINVAL
  realpathFS := fun _ => .error .ENOENT
  cwd := ['/']

/-- Platform selection for the `#if ENABLE_PLATFORM_MINGW32` conditionals in
`xreadlink.c`.  On the MINGW platform the relative-path test is the external
helper `is_relative_path` (not part of this fragment); modelled from the spec:
the platform path-syntax "absoluteness test" is an abstract predicate supplied
per platform. -/
structure Platform where
  mingw : Bool
  is_relative_path : CPath → Bool

/-- The POSIX (non-MINGW) platform: a target is relative exactly when its first
character is not `'/'` (`*linkpath != '/'`, line 85). -/
def posixPlatform : Platform where
  mingw := false
  is_relative_path := fun t => decide (t.head? ≠ some '/')

/-- The relative-target test used by `xmalloc_follow_symlinks` (lines 82-86):
`is_relative_path(linkpath)` under MINGW, `*linkpath != '/'` otherwise. -/
def linkIsRelative (pl : Platform) (t : CPath) : Bool :=
  if pl.mingw then pl.is_relative_path t else decide (t.head? ≠ some '/')

/-- The directory part of a path up to and including its last `'/'`; empty when
the path has no separator. -/
def dirPart (buf : CPath) : CPath :=
  (buf.reverse.dropWhile (fun c => c ≠ '/')).reverse

/-- The last path component (everything after the last `'/'`; the whole path
when it has no separator). -/
def leafPart (buf : CPath) : CPath :=
  (buf.reverse.takeWhile (fun c => c ≠ '/')).reverse

/-- Modelled from the spec: the relative-target splice of SymlinkChainResolver
step 4 (`lpc = bb_get_last_path_component_strip(buf); strcpy(lpc, linkpath)`,
lines 89-90; the helper itself is not part of this fragment).  Locate the last
path separator in the current path, keep the parent-directory prefix up to it,
and append the relative target in place of the last component; a path with no
separator is treated as if its parent prefix were empty. -/
def spliceLastComponent (buf target : CPath) : CPath :=
  dirPart buf ++ target

/-- Bookkeeping for the instrumented chain-resolution loop: keep the result and
errno, and count one more `readlink` call. -/
def bumpReads (r : Option CPath × Errno × Nat) : Option CPath × Errno × Nat :=
  (r.1, r.2.1, r.2.2 + 1)

/-- The `while (1)` loop of `xmalloc_follow_symlinks` (lines 58-98), instrumented
with the number of `xmalloc_readlink` calls performed (third component) and an
explicit `errno` state (second component).  `looping` is the hop budget; the C
`if (!--looping)` test fails the resolution exactly when the budget, decremented
once per successful readlink, reaches zero (for the reachable budgets
`looping ≥ 1`; the loop is entered with `MAXSYMLINKS + 1`).  On a failed
readlink with `errno` of `EINVAL` or `ENOENT` (or `ENOSYS` under MINGW) the
current path is returned as the successful result; any other readlink failure
returns `NULL`.  On budget exhaustion `errno` is set to `ELOOP` only under
MINGW. -/
def follow_loop (pl : Platform) (fs : FS) (looping : Nat) (buf : CPath) (en : Errno) :
    Option CPath × Errno × Nat :=
  match fs.readlinkFS buf with
  | .error e =>
    if e = .EINVAL ∨ e = .ENOENT ∨ (pl.mingw = true ∧ e = .ENOSYS) then
      (some buf, e, 1)
    else
      (none, e, 1)
  | .ok linkpath =>
    if _h : looping - 1 = 0 then
      (none, if pl.mingw then .ELOOP else en, 1)
    else
      bumpReads (follow_loop pl fs (looping - 1)
        (if linkIsRelative pl linkpath then spliceLastComponent buf linkpath else linkpath)
        en)
termination_by looping
decreasing_by omega

/-- Model of `xmalloc_follow_symlinks` (lines 52-99): follow trailing symlinks starting
from a private copy of `path`, with hop budget `MAXSYMLINKS + 1`. -/
def xmalloc_follow_symlinks (pl : Platform) (fs : FS) (path : CPath) (en : Errno) :
    Option CPath × Errno × Nat :=
  follow_loop pl fs (MAXSYMLINKS + 1) path en

/-- A filesystem on which every path is a symlink pointing at `"/a"` (in
particular `"/a"` is a self-referential symlink). -/
def cycleFS : FS where
  readlinkFS := fun _ => .ok ['/', 'a']
  realpathFS := fun _ => .error .ENOENT
  cwd := ['/']

/-- A filesystem with the single 1-hop chain `"/x" → "/y"`. -/
def chainFS : FS where
  readlinkFS := fun q => if q = ['/', 'x'] then .ok ['/', 'y'] else .error .EINVAL
  realpathFS := fun _ => .error .ENOENT
  cwd := ['/']

/-- The chain `"/x"`, `"/y"` as a function of the hop index. -/
def chainFn : Nat → CPath := fun k => if k = 0 then ['/', 'x'] else ['/', 'y']

/-- A filesystem where the trailing component `"/t/l"` is a symlink with the
relative target `"s"`. -/
def hopFS : FS where
  readlinkFS := fun q => if q = ['/', 't', '/', 'l'] then .ok ['s'] else .error .EINVAL
  realpathFS := fun _ => .error .ENOENT
  cwd := ['/']

/-- The MINGW platform (with its abstract relative-path predicate instantiated
like the POSIX one, which none of the error-path claims depend on). -/
def mingwPlatform : Platform where
  mingw := true
  is_relative_path := fun t => decide (t.head? ≠ some '/')

/-- A filesystem whose readlink primitive always reports `ENOSYS`. -/
def enosysFS : FS where
  readlinkFS := fun _ => .error .ENOSYS
  realpathFS := fun _ => .error .ENOENT
  cwd := ['/']

/-- A filesystem on which every path is a symlink pointing at `"/b"`. -/
def cycleFS10 : FS where
  readlinkFS := fun _ => .ok ['/', 'b']
  realpathFS := fun _ => .error .ENOENT
  cwd := ['/']

/-- Model of `xmalloc_realpath` (lines 115-131): a thin facade over the platform's
strict canonicalization primitive; regardless of whether the primitive
allocates or fills a caller buffer, the result is an owned path or a definitive
failure. -/
def xmalloc_realpath (fs : FS) (p : CPath) : Except Errno CPath :=
  fs.realpathFS p

/-- Modelled from the spec: the path-join collaborator (`concat_path_file`, not
part of this fragment) joining a directory and a file name with a separator. -/
def joinPath (d f : CPath) : CPath :=
  d ++ '/' :: f

/-- The leading-separator normalization of `xmalloc_realpath_coreutils`
(lines 212-213): `while (path[0] == '/' && path[1] == '/') ++path;` — the
pointer advances past duplicate leading slashes so that exactly one survives.
Written as a single drop of the redundant leading slashes; the lemmas
`skipLeadingSlashes_step` and `skipLeadingSlashes_fix` below show this equals
the C loop's step and exit behaviour. -/
def skipLeadingSlashes (p : CPath) : CPath :=
  match p with
  | '/' :: rest =>
    if rest.head? = some '/' then p.drop (rest.takeWhile (fun c => c = '/')).length else p
  | _ => p

/-- The trailing-separator scan `while (i > 0 && path[i] == '/') i--;`
(lines 214-216) in its defined-behaviour region: starting index `i`, decrement
while the byte there is a separator, never reading index 0. -/
def lastNonSlash (q : CPath) : Nat → Nat
  | 0 => 0
  | i + 1 => if q[i + 1]? = some '/' then lastNonSlash q i else i + 1

/-- Trailing-slash trimming of `xmalloc_realpath_coreutils` (lines 214-218):
scan back from the last character over separators (keeping at least one
character) and cut the string right after the scan position
(`c = path[i + 1]; path[i + 1] = '\0';`). -/
def trimTrailing (q : CPath) : CPath :=
  q.take (lastNonSlash q (q.length - 1) + 1)

/-- Model of `strrchr(path, '/')` (line 220): index of the last separator, if any. -/
def lastSlashIdx : CPath → Option Nat
  | [] => none
  | c :: rest =>
    match lastSlashIdx rest with
    | some j => some (j + 1)
    | none => if c = '/' then some 0 else none

/-- Model of `xmalloc_realpath_coreutils` (lines 133-239, non-MINGW branch): value-level
model with a recursion fuel (the C recursion on a dangling symlink's target has
no intrinsic bound; every claim is stated with enough fuel).  Strict
canonicalization first; on `ENOENT`, either recurse on the (absolutized) target
of a dangling trailing symlink, or normalize the path, split it at its last
separator, canonicalize the parent prefix and re-attach the leaf.  A normalized
path with no separator leaves `buf = NULL`; one whose last separator is its
first character is returned as-is (`last_slash == path`). -/
def xmalloc_realpath_coreutils (fs : FS) : Nat → CPath → Option CPath
  | 0, _ => none
  | fuel + 1, path =>
    match xmalloc_realpath fs path with
    | .ok buf => some buf
    | .error e =>
      if e = .ENOENT then
        match xmalloc_readlink fs path with
        | some target =>
          xmalloc_realpath_coreutils fs fuel
            (if target.head? ≠ some '/' then joinPath fs.cwd target else target)
        | none =>
          let q := trimTrailing (skipLeadingSlashes path)
          match lastSlashIdx q with
          | none => none
          | some j =>
            if j = 0 then some q
            else
              match xmalloc_realpath fs (q.take j) with
              | .ok buf => some (buf ++ '/' :: q.drop (j + 1))
              | .error _ => none
      else none

/-- A filesystem where `"/d"` exists (canonicalizing to `"/r"`) and every other
path fails strict canonicalization with `EACCES`. -/
def existsFS : FS where
  readlinkFS := fun _ => .error .EINVAL
  realpathFS := fun p => if p = ['/', 'd'] then .ok ['/', 'r'] else .error .EACCES
  cwd := ['/']

/-- A filesystem where `"/l"` is a dangling symlink to the relative target
`"x"`. -/
def danglingFS : FS where
  readlinkFS := fun q => if q = ['/', 'l'] then .ok ['x'] else .error .EINVAL
  realpathFS := fun q => if q = ['/', 'l'] then .error .ENOENT else .ok q
  cwd := ['/', 'c']

/-- A filesystem where the separator-free relative path `"m"` has no entry
(strict canonicalization fails `ENOENT`, it is not a symlink) while every other
path — in particular the current working directory `"/c"` — exists. -/
def noSepFS : FS where
  readlinkFS := fun _ => .error .EINVAL
  realpathFS := fun p => if p = ['m'] then .error .ENOENT else .ok p
  cwd := ['/', 'c']

/-- A filesystem where `"/a"` exists and canonicalizes to `"/r"` while
`"/a/m"` does not exist and is not a symlink. -/
def missingLeafFS : FS where
  readlinkFS := fun _ => .error .EINVAL
  realpathFS := fun q =>
    if q = ['/', 'a', '/', 'm'] then .error .ENOENT
    else if q = ['/', 'a'] then .ok ['/', 'r'] else .error .EOTHER
  cwd := ['/', 'c']

/-- Modulus of `size_t` arithmetic (64-bit): `strlen(path) - 1` is computed in
this modulus, so it wraps for an empty string. -/
def SIZE_T_MOD : Nat := 2 ^ 64

/-- Computation of `strlen(path) - 1` in `size_t` arithmetic (line 214): for the
empty string the unsigned subtraction wraps around to `SIZE_T_MOD - 1`; for any
`size_t`-representable nonzero length it is the plain predecessor.  The lemma
`strlenMinus1_eq_mod` shows this equals `(n + SIZE_T_MOD - 1) % SIZE_T_MOD` for
every representable length. -/
def strlenMinus1 : Nat → Nat
  | 0 => SIZE_T_MOD - 1
  | n + 1 => n

/-- The C string stored in a raw buffer: the bytes strictly before the first
NUL terminator. -/
def cstr (mem : List Char) : CPath :=
  mem.takeWhile (fun c => c ≠ '\x00')

/-- The trailing-separator scan `while (i > 0 && path[i] == '/') i--;`
(lines 214-216) over the raw buffer, with `Option`-returning indexing: reading
an out-of-bounds byte yields `none` (the undefined access of the C code). -/
def trailScan (sub : List Char) (i : Nat) : Option Nat :=
  if i = 0 then some 0
  else
    match sub[i]? with
    | none => none
    | some c => if c = '/' then trailScan sub (i - 1) else some i
termination_by i
decreasing_by omega

/-- The raw buffer after the missing-leaf fallback restores its truncation
write: `path[i + 1] = '\0'` followed by `path[i + 1] = c` (lines 217-218 and
235), re-attached after the skipped leading slashes. -/
def memRestore1 (mem : List Char) (i : Nat) (c : Char) : List Char :=
  mem.take (mem.length - (skipLeadingSlashes mem).length)
    ++ ((skipLeadingSlashes mem).set (i + 1) '\x00').set (i + 1) c

/-- The raw buffer after the missing-leaf fallback restores both its writes:
`path[i + 1] = '\0'`, `*last_slash = '\0'`, `*last_slash++ = '/'` and finally
`path[i + 1] = c` (lines 217-218, 224-226 and 235). -/
def memRestore2 (mem : List Char) (i j : Nat) (c : Char) : List Char :=
  mem.take (mem.length - (skipLeadingSlashes mem).length)
    ++ (((((skipLeadingSlashes mem).set (i + 1) '\x00').set j '\x00').set
        j '/').set (i + 1) c)

/-- The missing-leaf fallback of `xmalloc_realpath_coreutils` (lines 210-235,
the POSIX `#else` branch), on the raw buffer: skip duplicate leading slashes
(a pointer advance), scan back over trailing slashes — with `size_t`
wraparound of `strlen(path) - 1` and `Option`-returning indexing, so an
out-of-bounds read yields `none` — truncate after the scan position, locate
the last separator of the truncated string, and either give up (`NULL`, no
separator), return the truncated string itself (separator in first position,
`last_slash == path`), or canonicalize the parent prefix and re-attach the
leaf.  Every write to the buffer is then undone before returning. -/
def coreutils_fallback_mem (fs : FS) (mem : List Char) :
    Option (Option CPath × List Char) :=
  match trailScan (skipLeadingSlashes mem)
      (strlenMinus1 (cstr (skipLeadingSlashes mem)).length) with
  | none => none
  | some i =>
    match (skipLeadingSlashes mem)[i + 1]? with
    | none => none
    | some c =>
      match lastSlashIdx (cstr ((skipLeadingSlashes mem).set (i + 1) '\x00')) with
      | none => some (none, memRestore1 mem i c)
      | some j =>
        if j = 0 then
          some (some (cstr ((skipLeadingSlashes mem).set (i + 1) '\x00')),
            memRestore1 mem i c)
        else
          match xmalloc_realpath fs
              (cstr (((skipLeadingSlashes mem).set (i + 1) '\x00').set j '\x00')) with
          | .ok buf =>
            some (some (buf ++ '/'
                :: (cstr ((skipLeadingSlashes mem).set (i + 1) '\x00')).drop (j + 1)),
              memRestore2 mem i j c)
          | .error _ => some (none, memRestore2 mem i j c)

/-- Model of `xmalloc_realpath_coreutils` (lines 133-239, non-MINGW branch): memory-level
model: the argument is the caller's raw NUL-terminated buffer, every in-place
write (`path[i + 1] = '\0'`, `*last_slash = '\0'`, `*last_slash++ = '/'`,
`path[i + 1] = c`) is performed on it with `List.set`, and the final buffer
contents are returned alongside the result.  The outer `Option` is `none` when
the model cannot follow the C code (an out-of-bounds read, or fuel exhaustion
of the unbounded dangling-symlink recursion). -/
def xmalloc_realpath_coreutils_mem (fs : FS) :
    Nat → List Char → Option (Option CPath × List Char)
  | 0, _ => none
  | fuel + 1, mem =>
    match xmalloc_realpath fs (cstr mem) with
    | .ok buf => some (some buf, mem)
    | .error e =>
      if e = .ENOENT then
        match xmalloc_readlink fs (cstr mem) with
        | some target =>
          match xmalloc_realpath_coreutils_mem fs fuel
              ((if target.head? ≠ some '/' then joinPath fs.cwd target else target)
                ++ ['\x00']) with
          | none => none
          | some (r, _) => some (r, mem)
        | none => coreutils_fallback_mem fs mem
      else some (none, mem)

/-- A filesystem where `"/m"` fails strict canonicalization with `ENOENT` and
nothing is a symlink. -/
def frameFS : FS where
  readlinkFS := fun _ => .error .EINVAL
  realpathFS := fun _ => .error .ENOENT
  cwd := ['/']

/-- A filesystem on which nothing exists and nothing is a symlink. -/
def emptyFS : FS where
  readlinkFS := fun _ => .error .EINVAL
  realpathFS := fun _ => .error .ENOENT
  cwd := ['/']

/-- The retry loop always ends with the full target length reported: growing by
`GROWBY` whenever the reported length reaches the capacity, and stopping only
when it is strictly below the capacity, leaves `readsize = L`. -/
theorem readlink_loop_eq (L b : Nat) : readlink_loop L b = L := by
  unfold readlink_loop
  split
  next h =>
    exact readlink_loop_eq L (b + GROWBY)
  next h =>
    omega
termination_by L + 1 - b
decreasing_by
  have hG : GROWBY = 80 := rfl
  omega

/-- C3: whenever the OS read primitive succeeds (the path is a symlink with
stored target `t`, of arbitrary length, including multiples of the 80-byte
increment), `xmalloc_readlink` returns exactly the complete target text,
untruncated. -/
theorem xmalloc_readlink_untruncated (fs : FS) (p t : CPath)
    (h : fs.readlinkFS p = .ok t) :
    xmalloc_readlink fs p = some t := by
  unfold xmalloc_readlink
  rw [h]
  simp [readlink_loop_eq]

theorem xmalloc_readlink_untruncated_witness :
    xmalloc_readlink readlinkWitnessFS ['p'] = some (List.replicate 160 'a') :=
  xmalloc_readlink_untruncated readlinkWitnessFS ['p'] (List.replicate 160 'a') rfl

/-- When every path in the filesystem reads as a symlink (a cycle, or an
endless chain), the loop consumes its whole budget `l`, makes exactly `l`
readlink calls, and fails; `errno` becomes `ELOOP` under MINGW and is left
unchanged otherwise. -/
theorem follow_loop_all_ok (pl : Platform) (fs : FS) (en : Errno)
    (hall : ∀ q, ∃ t, fs.readlinkFS q = .ok t) :
    ∀ l p, 1 ≤ l →
      follow_loop pl fs l p en = (none, (if pl.mingw then .ELOOP else en), l) := by
  intro l
  induction l with
  | zero => omega
  | succ l ih =>
    intro p _
    obtain ⟨t, ht⟩ := hall p
    unfold follow_loop
    rw [ht]
    rcases Nat.eq_zero_or_pos l with hl | hl
    · subst hl
      simp
    · have hl1 : ¬ (l + 1 - 1 = 0) := by omega
      have hrec := ih (if linkIsRelative pl t then spliceLastComponent p t else t) (by omega)
      have hstep : l + 1 - 1 = l := by omega
      dsimp only
      rw [dif_neg hl1, hstep, hrec]
      simp [bumpReads]

/-- Walking a chain `chain 0 → chain 1 → ... → chain N` of absolute-target
symlinks whose end is not a symlink: from position `k` (with `k + d = N`), the
loop resolves hop-by-hop to `chain N` using `d + 1` readlink calls. -/
theorem follow_loop_chain (pl : Platform) (fs : FS) (chain target : Nat → CPath)
    (N : Nat) (en : Errno)
    (hN : N ≤ MAXSYMLINKS)
    (hlink : ∀ k, k < N → fs.readlinkFS (chain k) = .ok (target k))
    (hstep : ∀ k, k < N → chain (k + 1)
      = (if linkIsRelative pl (target k) then spliceLastComponent (chain k) (target k)
         else target k))
    (hend : fs.readlinkFS (chain N) = .error .EINVAL) :
    ∀ d k, k + d = N →
      follow_loop pl fs (MAXSYMLINKS + 1 - k) (chain k) en
        = (some (chain N), .EINVAL, d + 1) := by
  intro d
  induction d with
  | zero =>
    intro k hk
    have hkN : k = N := by omega
    subst hkN
    unfold follow_loop
    rw [hend]
    simp
  | succ d ih =>
    intro k hk
    have hkN : k < N := by omega
    have hM : MAXSYMLINKS = 20 := rfl
    unfold follow_loop
    rw [hlink k hkN]
    dsimp only
    have h1 : ¬ (MAXSYMLINKS + 1 - k - 1 = 0) := by omega
    rw [dif_neg h1, ← hstep k hkN]
    have h2 : MAXSYMLINKS + 1 - k - 1 = MAXSYMLINKS + 1 - (k + 1) := by omega
    rw [h2, ih (k + 1) (by omega)]
    simp [bumpReads]

/-- C2: the hop budget starts at `MAXSYMLINKS + 1` and strictly decreases by one
per successful symlink read, and resolution fails exactly when it reaches zero.
Part 1: on a filesystem where every path reads as a symlink (covering cyclic
chains and chains longer than the bound), `xmalloc_follow_symlinks` terminates
and fails after exactly `MAXSYMLINKS + 1` symlink reads.  Part 2: a chain of
`N ≤ MAXSYMLINKS` trailing hops instead resolves hop-by-hop to the final
non-symlink target, using `N + 1` reads. -/
theorem follow_symlinks_hop_budget :
    (∀ (pl : Platform) (fs : FS) (p : CPath) (en : Errno),
      (∀ q, ∃ t, fs.readlinkFS q = .ok t) →
      xmalloc_follow_symlinks pl fs p en
        = (none, (if pl.mingw then Errno.ELOOP else en), MAXSYMLINKS + 1))
    ∧ (∀ (pl : Platform) (fs : FS) (chain target : Nat → CPath) (N : Nat) (en : Errno),
      N ≤ MAXSYMLINKS →
      (∀ k, k < N → fs.readlinkFS (chain k) = .ok (target k)) →
      (∀ k, k < N → chain (k + 1)
        = (if linkIsRelative pl (target k) then spliceLastComponent (chain k) (target k)
           else target k)) →
      fs.readlinkFS (chain N) = .error .EINVAL →
      xmalloc_follow_symlinks pl fs (chain 0) en = (some (chain N), .EINVAL, N + 1)) := by
  constructor
  · intro pl fs p en hall
    exact follow_loop_all_ok pl fs en hall (MAXSYMLINKS + 1) p (by omega)
  · intro pl fs chain target N en hN hlink hstep hend
    have h := follow_loop_chain pl fs chain target N en hN hlink hstep hend N 0 (by omega)
    simpa [xmalloc_follow_symlinks] using h

theorem follow_symlinks_hop_budget_witness :
    xmalloc_follow_symlinks posixPlatform cycleFS ['/', 'a'] .EACCES
      = (none, .EACCES, MAXSYMLINKS + 1)
    ∧ xmalloc_follow_symlinks posixPlatform chainFS ['/', 'x'] .EACCES
      = (some ['/', 'y'], .EINVAL, 2) := by
  constructor
  · have h := follow_symlinks_hop_budget.1 posixPlatform cycleFS ['/', 'a'] .EACCES
      (fun q => ⟨['/', 'a'], rfl⟩)
    simpa [posixPlatform] using h
  · have h := follow_symlinks_hop_budget.2 posixPlatform chainFS chainFn
      (fun _ => ['/', 'y']) 1 .EACCES (by decide) (by decide) (by decide) (by decide)
    simpa [chainFn] using h

/-- C4: per-hop transformation of the accumulated path.  When the trailing
component reads as a symlink with target `t` and the budget is not yet
exhausted: an absolute target replaces the accumulated path entirely; a
relative target is spliced over the last component, keeping the parent prefix
up to the last separator (`spliceLastComponent`).  Moreover the splice with an
empty parent prefix (no separator in the path) yields the target itself, the
spliced path is exactly the parent-directory prefix followed by the target, and
that prefix together with the last component reassembles the original path. -/
theorem follow_hop_semantics (fs : FS) (buf t : CPath) (L : Nat) (en : Errno)
    (hread : fs.readlinkFS buf = .ok t) (hL : L - 1 ≠ 0) :
    (∀ pl : Platform, linkIsRelative pl t = false →
      follow_loop pl fs L buf en = bumpReads (follow_loop pl fs (L - 1) t en))
    ∧ (∀ pl : Platform, linkIsRelative pl t = true →
      follow_loop pl fs L buf en
        = bumpReads (follow_loop pl fs (L - 1) (spliceLastComponent buf t) en))
    ∧ ((∀ c ∈ buf, c ≠ '/') → spliceLastComponent buf t = t)
    ∧ spliceLastComponent buf t = dirPart buf ++ t
    ∧ dirPart buf ++ leafPart buf = buf := by
  refine ⟨?_, ?_, ?_, rfl, ?_⟩
  · intro pl hrel
    conv_lhs => rw [follow_loop]
    rw [hread]
    dsimp only
    rw [dif_neg hL, hrel]
    simp
  · intro pl hrel
    conv_lhs => rw [follow_loop]
    rw [hread]
    dsimp only
    rw [dif_neg hL, hrel]
    simp
  · intro hns
    unfold spliceLastComponent dirPart
    have hnil : buf.reverse.dropWhile (fun c => decide (c ≠ '/')) = [] := by
      rw [List.dropWhile_eq_nil_iff]
      intro x hx
      simp only [List.mem_reverse] at hx
      simp [hns x hx]
    rw [hnil]
    simp
  · unfold dirPart leafPart
    rw [← List.reverse_append, List.takeWhile_append_dropWhile, List.reverse_reverse]

theorem follow_hop_semantics_witness :
    follow_loop posixPlatform hopFS 21 ['/', 't', '/', 'l'] .EACCES
      = bumpReads (follow_loop posixPlatform hopFS 20
          (spliceLastComponent ['/', 't', '/', 'l'] ['s']) .EACCES)
    ∧ spliceLastComponent ['/', 't', '/', 'l'] ['s'] = ['/', 't', '/', 's'] := by
  have h := follow_hop_semantics hopFS ['/', 't', '/', 'l'] ['s'] 21 .EACCES
    (by decide) (by decide)
  exact ⟨h.2.1 posixPlatform (by decide), by decide⟩

/-- C5: classification of a failed trailing-component read.  `EINVAL`
(not a symlink) and `ENOENT` (does not exist) — and, under MINGW only, also
`ENOSYS` — make `xmalloc_follow_symlinks` succeed with the current path
unchanged, folded into the same success branch; any other read failure makes
the whole resolution fail. -/
theorem follow_error_fold (pl : Platform) (fs : FS) (p : CPath) (en e : Errno)
    (h : fs.readlinkFS p = .error e) :
    xmalloc_follow_symlinks pl fs p en
      = if e = .EINVAL ∨ e = .ENOENT ∨ (pl.mingw = true ∧ e = .ENOSYS) then
          (some p, e, 1)
        else
          (none, e, 1) := by
  unfold xmalloc_follow_symlinks follow_loop
  rw [h]

theorem follow_error_fold_witness :
    xmalloc_follow_symlinks mingwPlatform enosysFS ['x'] .EACCES = (some ['x'], .ENOSYS, 1)
    ∧ xmalloc_follow_symlinks posixPlatform enosysFS ['x'] .EACCES = (none, .ENOSYS, 1) :=
  ⟨(follow_error_fold mingwPlatform enosysFS ['x'] .EACCES .ENOSYS rfl).trans (by decide),
   (follow_error_fold posixPlatform enosysFS ['x'] .EACCES .ENOSYS rfl).trans (by decide)⟩

/-- C10: when the hop budget is exhausted on a non-MINGW build, the failure
carries no distinguishing error kind: `errno` is returned exactly as it was on
entry (for every entry value `en`), while under MINGW it is set to `ELOOP`. -/
theorem follow_exhaustion_errno (fs : FS) (p : CPath) (en : Errno)
    (hall : ∀ q, ∃ t, fs.readlinkFS q = .ok t) :
    xmalloc_follow_symlinks posixPlatform fs p en = (none, en, MAXSYMLINKS + 1)
    ∧ ∀ pl : Platform, pl.mingw = true →
        xmalloc_follow_symlinks pl fs p en = (none, .ELOOP, MAXSYMLINKS + 1) := by
  constructor
  · have h := follow_loop_all_ok posixPlatform fs en hall (MAXSYMLINKS + 1) p (by omega)
    simpa [posixPlatform, xmalloc_follow_symlinks] using h
  · intro pl hm
    have h := follow_loop_all_ok pl fs en hall (MAXSYMLINKS + 1) p (by omega)
    simpa [hm, xmalloc_follow_symlinks] using h

theorem follow_exhaustion_errno_witness :
    xmalloc_follow_symlinks posixPlatform cycleFS10 ['/', 'b'] .EACCES
      = (none, .EACCES, MAXSYMLINKS + 1)
    ∧ xmalloc_follow_symlinks mingwPlatform cycleFS10 ['/', 'b'] .EACCES
      = (none, .ELOOP, MAXSYMLINKS + 1) := by
  have h := follow_exhaustion_errno cycleFS10 ['/', 'b'] .EACCES (fun q => ⟨['/', 'b'], rfl⟩)
  exact ⟨h.1, h.2 mingwPlatform rfl⟩

/-- One step of the C leading-slash loop: skipping `"//x..."` equals skipping
`"/x..."` — the drop-based `skipLeadingSlashes` satisfies the loop's step
equation. -/
theorem skipLeadingSlashes_step (rest : CPath) :
    skipLeadingSlashes ('/' :: '/' :: rest) = skipLeadingSlashes ('/' :: rest) := by
  unfold skipLeadingSlashes
  simp only [List.head?_cons, Option.some.injEq, List.takeWhile]
  norm_num
  cases h : rest.head? with
  | none =>
    have : rest = [] := List.head?_eq_none_iff.mp h
    subst this
    simp
  | some c =>
    by_cases hc : c = '/'
    · subst hc
      cases rest with
      | nil => simp at h
      | cons r rs =>
        simp only [List.head?_cons, Option.some.injEq] at h
        subst h
        simp [List.takeWhile]
    · cases rest with
      | nil => simp at h
      | cons r rs =>
        simp only [List.head?_cons, Option.some.injEq] at h
        subst h
        simp [List.takeWhile, hc]

/-- Exit condition of the C leading-slash loop: a path that does not start with
two separators is left unchanged. -/
theorem skipLeadingSlashes_fix (p : CPath) (h : ∀ rest, p ≠ '/' :: '/' :: rest) :
    skipLeadingSlashes p = p := by
  unfold skipLeadingSlashes
  split
  next rest =>
    cases hr : rest.head? with
    | none => simp [hr]
    | some c =>
      by_cases hc : c = '/'
      · subst hc
        cases rest with
        | nil => simp at hr
        | cons r rs =>
          simp only [List.head?_cons, Option.some.injEq] at hr
          subst hr
          exact absurd rfl (h rs)
      · simp [hr, hc]
  next => rfl

/-- Helper: a successful `readlink` primitive makes `xmalloc_readlink` return
the full target. -/
theorem xmalloc_readlink_ok (fs : FS) (p t : CPath) (h : fs.readlinkFS p = .ok t) :
    xmalloc_readlink fs p = some t := by
  unfold xmalloc_readlink
  rw [h]
  simp [readlink_loop_eq]

/-- Helper: a failed `readlink` primitive makes `xmalloc_readlink` return
`NULL`. -/
theorem xmalloc_readlink_err (fs : FS) (p : CPath) (e : Errno)
    (h : fs.readlinkFS p = .error e) :
    xmalloc_readlink fs p = none := by
  unfold xmalloc_readlink
  rw [h]

/-- C6: `xmalloc_realpath_coreutils` delegates to strict canonicalization.
Whenever the primitive succeeds its result is returned unmodified, and the
missing-leaf fallback is entered only on `ENOENT`: any other canonicalization
failure is returned as failure directly. -/
theorem coreutils_delegates_to_realpath (fs : FS) (n : Nat) (p : CPath) :
    (∀ b, fs.realpathFS p = .ok b → xmalloc_realpath_coreutils fs (n + 1) p = some b)
    ∧ (∀ e, fs.realpathFS p = .error e → e ≠ .ENOENT →
        xmalloc_realpath_coreutils fs (n + 1) p = none) := by
  constructor
  · intro b hb
    conv_lhs => unfold xmalloc_realpath_coreutils xmalloc_realpath
    rw [hb]
  · intro e he hne
    conv_lhs => unfold xmalloc_realpath_coreutils xmalloc_realpath
    rw [he]
    simp [hne]

theorem coreutils_delegates_to_realpath_witness :
    xmalloc_realpath_coreutils existsFS 1 ['/', 'd'] = some ['/', 'r']
    ∧ xmalloc_realpath_coreutils existsFS 1 ['x'] = none :=
  ⟨(coreutils_delegates_to_realpath existsFS 0 ['/', 'd']).1 ['/', 'r'] rfl,
   (coreutils_delegates_to_realpath existsFS 0 ['x']).2 .EACCES rfl (by decide)⟩

/-- C7: when strict canonicalization fails with `ENOENT` and the path itself is
a symlink (a dangling trailing link) with stored target `t`,
`xmalloc_realpath_coreutils` equals itself applied to the target made absolute
(the target when absolute, else the current working directory joined with it),
and that recursive result is returned directly. -/
theorem coreutils_dangling_recursion (fs : FS) (n : Nat) (p t : CPath)
    (h1 : fs.realpathFS p = .error .ENOENT) (h2 : fs.readlinkFS p = .ok t) :
    xmalloc_realpath_coreutils fs (n + 1) p
      = xmalloc_realpath_coreutils fs n
          (if t.head? ≠ some '/' then joinPath fs.cwd t else t) := by
  conv_lhs => unfold xmalloc_realpath_coreutils xmalloc_realpath
  rw [h1, xmalloc_readlink_ok fs p t h2]
  simp

theorem coreutils_dangling_recursion_witness :
    xmalloc_realpath_coreutils danglingFS 2 ['/', 'l']
      = xmalloc_realpath_coreutils danglingFS 1
          (if (['x'] : CPath).head? ≠ some '/' then joinPath danglingFS.cwd ['x'] else ['x']) :=
  coreutils_dangling_recursion danglingFS 1 ['/', 'l'] ['x'] (by decide) (by decide)

/-- C1 counterexample: for the separator-free relative path `"m"` whose implied
parent (the current directory `"/c"`) exists and whose leaf neither exists nor
is a symlink, `xmalloc_realpath_coreutils` returns `NULL` — not
`join(canonicalize(parent), leaf)` as the claim requires for paths with no
separator (`strrchr` finds no `'/'`, so `buf` is never assigned, line 220). -/
theorem coreutils_no_separator_counterexample :
    xmalloc_realpath_coreutils noSepFS 2 ['m'] = none
    ∧ xmalloc_realpath_coreutils noSepFS 2 ['m'] ≠ some (joinPath ['/', 'c'] ['m']) := by
  decide

/-- C1 (amended): for a path that does contain a separator at a position after
its first character (in normalized form), with the leaf missing (`ENOENT`) and
not a symlink, the result is the strict canonicalization of the parent prefix
followed by a separator and the unchanged leaf; separator-free relative paths
instead fail (see the counterexample). -/
theorem coreutils_missing_leaf_join (fs : FS) (n : Nat) (p q : CPath) (j : Nat)
    (b : CPath) (e : Errno)
    (h1 : fs.realpathFS p = .error .ENOENT)
    (h2 : fs.readlinkFS p = .error e)
    (hq : trimTrailing (skipLeadingSlashes p) = q)
    (hj : lastSlashIdx q = some j) (hj0 : j ≠ 0)
    (hb : fs.realpathFS (q.take j) = .ok b) :
    xmalloc_realpath_coreutils fs (n + 1) p = some (b ++ '/' :: q.drop (j + 1)) := by
  conv_lhs => unfold xmalloc_realpath_coreutils xmalloc_realpath
  rw [h1, xmalloc_readlink_err fs p e h2]
  simp only [hq, hj]
  rw [hb]
  simp [hj0]

theorem coreutils_missing_leaf_join_witness :
    xmalloc_realpath_coreutils missingLeafFS 1 ['/', 'a', '/', 'm']
      = some ['/', 'r', '/', 'm'] :=
  (coreutils_missing_leaf_join missingLeafFS 0 ['/', 'a', '/', 'm'] ['/', 'a', '/', 'm']
    2 ['/', 'r'] .EINVAL rfl rfl (by decide) (by decide) (by decide) rfl).trans (by decide)

/-- Helper: writing back the byte that was just read leaves the buffer
unchanged. -/
theorem set_of_getElem? (l : List Char) : ∀ (n : Nat) (c : Char),
    l[n]? = some c → l.set n c = l := by
  induction l with
  | nil => intro n c h; simp at h
  | cons a l ih =>
    intro n c h
    cases n with
    | zero =>
      simp only [List.getElem?_cons_zero, Option.some.injEq] at h
      subst h
      simp
    | succ n =>
      simp only [List.getElem?_cons_succ] at h
      simp [List.set_cons_succ, ih n c h]

/-- Helper: an index valid in a `takeWhile` image is valid (with the same
byte) in the underlying buffer. -/
theorem takeWhile_getElem? (p : Char → Bool) : ∀ (l : List Char) (n : Nat) (a : Char),
    (l.takeWhile p)[n]? = some a → l[n]? = some a := by
  intro l
  induction l with
  | nil => intro n a h; simp [List.takeWhile] at h
  | cons c l ih =>
    intro n a h
    rw [List.takeWhile_cons] at h
    by_cases hp : p c
    · rw [if_pos hp] at h
      cases n with
      | zero => simpa using h
      | succ n =>
        simp only [List.getElem?_cons_succ] at h ⊢
        exact ih n a h
    · rw [if_neg hp] at h
      simp at h

/-- Helper: `strrchr` really points at a separator. -/
theorem lastSlashIdx_getElem : ∀ (q : CPath) (j : Nat),
    lastSlashIdx q = some j → q[j]? = some '/' := by
  intro q
  induction q with
  | nil => intro j h; simp [lastSlashIdx] at h
  | cons c rest ih =>
    intro j h
    unfold lastSlashIdx at h
    cases hr : lastSlashIdx rest with
    | some j' =>
      rw [hr] at h
      simp only [Option.some.injEq] at h
      subst h
      simp only [List.getElem?_cons_succ]
      exact ih j' hr
    | none =>
      rw [hr] at h
      by_cases hc : c = '/'
      · rw [if_pos hc] at h
        simp only [Option.some.injEq] at h
        subst h
        simp [hc]
      · rw [if_neg hc] at h
        simp at h

/-- Helper: `takeWhile` never yields more elements than its input. -/
theorem takeWhile_length_le (p : Char → Bool) : ∀ l : List Char,
    (l.takeWhile p).length ≤ l.length := by
  intro l
  induction l with
  | nil => simp
  | cons a l ih =>
    rw [List.takeWhile_cons]
    by_cases hp : p a
    · rw [if_pos hp]
      simp only [List.length_cons]
      exact Nat.succ_le_succ ih
    · rw [if_neg hp]
      simp

/-- Helper: the skipped leading slashes are exactly the buffer's prefix before
the suffix the function continues with. -/
theorem skip_pre_append (mem : List Char) :
    mem.take (mem.length - (skipLeadingSlashes mem).length) ++ skipLeadingSlashes mem
      = mem := by
  unfold skipLeadingSlashes
  split
  next rest =>
    split
    next h =>
      have hk : (rest.takeWhile (fun c => c = '/')).length ≤ rest.length :=
        takeWhile_length_le _ rest
      rw [List.length_drop]
      have hlen : ('/' :: rest).length - (('/' :: rest).length
          - (rest.takeWhile (fun c => c = '/')).length)
          = (rest.takeWhile (fun c => c = '/')).length := by
        simp only [List.length_cons]
        omega
      rw [hlen, List.take_append_drop]
    next => simp
  next => simp

/-- Helper: undoing the single truncation write restores the buffer. -/
theorem restore_once (sub : List Char) (i : Nat) (c : Char)
    (hc : sub[i + 1]? = some c) :
    (sub.set (i + 1) '\x00').set (i + 1) c = sub := by
  rw [List.set_set, set_of_getElem? _ (i + 1) c hc]

/-- Helper: undoing both the truncation write and the last-separator write
restores the buffer. -/
theorem restore_twice (sub : List Char) (i j : Nat) (c : Char)
    (hc : sub[i + 1]? = some c)
    (hj : lastSlashIdx (cstr (sub.set (i + 1) '\x00')) = some j) :
    (((sub.set (i + 1) '\x00').set j '\x00').set j '/').set (i + 1) c = sub := by
  have h1 : (sub.set (i + 1) '\x00')[j]? = some '/' :=
    takeWhile_getElem? _ _ j '/' (lastSlashIdx_getElem _ j hj)
  rw [List.set_set, set_of_getElem? _ j '/' h1, restore_once sub i c hc]


/-- The wrap-around predecessor equals the `size_t` formula
`(n + SIZE_T_MOD - 1) % SIZE_T_MOD` on every representable length. -/
theorem strlenMinus1_eq_mod (n : Nat) (h : n < SIZE_T_MOD) :
    strlenMinus1 n = (n + SIZE_T_MOD - 1) % SIZE_T_MOD := by
  have hM : 0 < SIZE_T_MOD := by norm_num [SIZE_T_MOD]
  cases n with
  | zero =>
    show SIZE_T_MOD - 1 = (0 + SIZE_T_MOD - 1) % SIZE_T_MOD
    rw [Nat.zero_add, Nat.mod_eq_of_lt (by omega)]
  | succ n =>
    show n = (n + 1 + SIZE_T_MOD - 1) % SIZE_T_MOD
    have he : n + 1 + SIZE_T_MOD - 1 = n + SIZE_T_MOD := by omega
    rw [he, Nat.add_mod_right, Nat.mod_eq_of_lt (by omega)]

/-- Helper: the single-truncation restore rebuilds the original buffer. -/
theorem memRestore1_eq (mem : List Char) (i : Nat) (c : Char)
    (hc : (skipLeadingSlashes mem)[i + 1]? = some c) :
    memRestore1 mem i c = mem := by
  unfold memRestore1
  rw [restore_once _ i c hc, skip_pre_append]

/-- Helper: the double-write restore rebuilds the original buffer. -/
theorem memRestore2_eq (mem : List Char) (i j : Nat) (c : Char)
    (hc : (skipLeadingSlashes mem)[i + 1]? = some c)
    (hj : lastSlashIdx (cstr ((skipLeadingSlashes mem).set (i + 1) '\x00')) = some j) :
    memRestore2 mem i j c = mem := by
  unfold memRestore2
  rw [restore_twice _ i j c hc hj, skip_pre_append]

/-- Helper: whenever the missing-leaf fallback completes, it hands back the
caller's buffer unchanged. -/
theorem coreutils_fallback_mem_frame (fs : FS) (mem : List Char)
    (r : Option CPath) (mem' : List Char)
    (h : coreutils_fallback_mem fs mem = some (r, mem')) :
    mem' = mem := by
  unfold coreutils_fallback_mem at h
  split at h
  next => exact absurd h (by simp)
  next i heq3 =>
    split at h
    next => exact absurd h (by simp)
    next c heq4 =>
      split at h
      next heq5 =>
        simp only [Option.some.injEq, Prod.mk.injEq] at h
        rw [← h.2, memRestore1_eq mem i c heq4]
      next j heq5 =>
        split at h
        · simp only [Option.some.injEq, Prod.mk.injEq] at h
          rw [← h.2, memRestore1_eq mem i c heq4]
        · split at h
          next buf heq6 =>
            simp only [Option.some.injEq, Prod.mk.injEq] at h
            rw [← h.2, memRestore2_eq mem i j c heq4 heq5]
          next heq6 =>
            simp only [Option.some.injEq, Prod.mk.injEq] at h
            rw [← h.2, memRestore2_eq mem i j c heq4 heq5]

/-- C8: frame property of `xmalloc_realpath_coreutils` — on every exit path on
which the memory model follows the C code to completion (all defined
executions, error paths included), the caller's buffer is byte-for-byte
unchanged after the call: each in-place truncation performed while normalizing
(the terminator written after the last non-separator character, the separator
cleared before canonicalizing the prefix) is undone before the function
returns. -/
theorem coreutils_frame (fs : FS) (fuel : Nat) (mem : List Char)
    (r : Option CPath) (mem' : List Char)
    (h : xmalloc_realpath_coreutils_mem fs fuel mem = some (r, mem')) :
    mem' = mem := by
  cases fuel with
  | zero => simp [xmalloc_realpath_coreutils_mem] at h
  | succ fuel =>
    unfold xmalloc_realpath_coreutils_mem at h
    split at h
    next buf heq =>
      simp only [Option.some.injEq, Prod.mk.injEq] at h
      exact h.2.symm
    next e heq =>
      split at h
      · split at h
        next target heq2 =>
          split at h
          next => exact absurd h (by simp)
          next r' m' heq3 =>
            simp only [Option.some.injEq, Prod.mk.injEq] at h
            exact h.2.symm
        next heq2 => exact coreutils_fallback_mem_frame fs mem r mem' h
      · simp only [Option.some.injEq, Prod.mk.injEq] at h
        exact h.2.symm

theorem coreutils_frame_witness :
    ∃ mem', xmalloc_realpath_coreutils_mem frameFS 1 ['/', 'm', '\x00']
        = some (some ['/', 'm'], mem')
      ∧ mem' = ['/', 'm', '\x00'] := by
  have hts : trailScan (skipLeadingSlashes ['/', 'm', '\x00'])
      (strlenMinus1 (cstr (skipLeadingSlashes ['/', 'm', '\x00'])).length) = some 1 := by
    rw [show skipLeadingSlashes ['/', 'm', '\x00'] = ['/', 'm', '\x00'] from rfl]
    rw [show strlenMinus1 (cstr ['/', 'm', '\x00']).length = 1 from rfl]
    rw [trailScan]
    decide
  have h : xmalloc_realpath_coreutils_mem frameFS 1 ['/', 'm', '\x00']
      = some (some ['/', 'm'], ['/', 'm', '\x00']) := by
    unfold xmalloc_realpath_coreutils_mem coreutils_fallback_mem
    rw [hts]
    decide
  exact ⟨['/', 'm', '\x00'], h, coreutils_frame frameFS 1 ['/', 'm', '\x00'] _ _ h⟩

/-- Helper: starting the trailing scan at an in-bounds index never reads out of
bounds. -/
theorem trailScan_ne_none (l : List Char) : ∀ i, i < l.length → trailScan l i ≠ none := by
  intro i
  induction i using Nat.strong_induction_on with
  | _ i ih =>
    intro hi
    by_cases h0 : i = 0
    · subst h0
      rw [trailScan]
      simp
    · rw [trailScan, if_neg h0]
      rw [List.getElem?_eq_getElem hi]
      dsimp only
      split
      · exact ih (i - 1) (by omega) (by omega)
      · simp

/-- C9: `xmalloc_realpath_coreutils` is in-bounds only for non-empty paths.
Part 1: for every non-empty (`size_t`-representable) path content, the
trailing-separator scan starting at `strlen(path) - 1` succeeds, so the
out-of-bounds branch is unreachable.  Part 2: for the empty path (with strict
canonicalization failing `ENOENT` and the path not a symlink),
`strlen(path) - 1` wraps around to the huge index `SIZE_T_MOD - 1`, the scan's
very first byte access is out of bounds and the memory model aborts with
`none`. -/
theorem coreutils_empty_path_oob :
    (∀ s : CPath, s ≠ [] → s.length < SIZE_T_MOD →
      ∃ i, trailScan (s ++ ['\x00']) (strlenMinus1 s.length) = some i)
    ∧ (∀ (fs : FS) (fuel : Nat) (e : Errno),
      fs.realpathFS [] = .error .ENOENT → fs.readlinkFS [] = .error e →
      xmalloc_realpath_coreutils_mem fs (fuel + 1) ['\x00'] = none) := by
  constructor
  · intro s hs _hlen
    obtain ⟨n, hn⟩ : ∃ n, s.length = n + 1 := by
      cases s with
      | nil => exact absurd rfl hs
      | cons a l => exact ⟨l.length, rfl⟩
    rw [hn]
    have h1 : strlenMinus1 (n + 1) = n := rfl
    rw [h1]
    have h2 : n < (s ++ ['\x00']).length := by
      rw [List.length_append, hn]
      omega
    exact Option.ne_none_iff_exists'.mp (trailScan_ne_none (s ++ ['\x00']) n h2)
  · intro fs fuel e h1 h2
    have hfb : coreutils_fallback_mem fs ['\x00'] = none := by
      unfold coreutils_fallback_mem
      rw [show skipLeadingSlashes ['\x00'] = ['\x00'] from rfl]
      rw [show strlenMinus1 (cstr ['\x00']).length = SIZE_T_MOD - 1 from rfl]
      have hts : trailScan ['\x00'] (SIZE_T_MOD - 1) = none := by
        rw [trailScan]
        have hne : ¬ (SIZE_T_MOD - 1 = 0) := by norm_num [SIZE_T_MOD]
        rw [if_neg hne]
        have hnone : (['\x00'] : List Char)[SIZE_T_MOD - 1]? = none := by
          apply List.getElem?_eq_none
          norm_num [SIZE_T_MOD]
        rw [hnone]
      rw [hts]
    unfold xmalloc_realpath_coreutils_mem xmalloc_realpath
    rw [show cstr ['\x00'] = [] from rfl, h1]
    dsimp only
    rw [if_pos rfl, xmalloc_readlink_err fs [] e h2]
    exact hfb

theorem coreutils_empty_path_oob_witness :
    (∃ i, trailScan (['a'] ++ ['\x00']) (strlenMinus1 (List.length ['a'])) = some i)
    ∧ xmalloc_realpath_coreutils_mem emptyFS 1 ['\x00'] = none :=
  ⟨coreutils_empty_path_oob.1 ['a'] (by decide) (by norm_num [SIZE_T_MOD]),
   coreutils_empty_path_oob.2 emptyFS 0 .EINVAL rfl rfl⟩
